import Mathlib

/-!
Verification of `afqinsight/datasets.py` (`load_afq_data`, `output_beta_to_afq`).

The Python source is shallowly embedded: pandas tables become lists of rows,
CSV cells become `Option α` over an arbitrary decidable linear order `α`
(pandas object columns hold arbitrary comparable values; `none` models a
missing value / NaN), and the errors the Python runtime raises on the various
failure paths become an explicit `PyError` type returned through `Except`.

The pivot engine `AFQDataFrameMapper` lives in `afqinsight/transform.py`,
which is not part of the sources here; where its outputs are needed
(`subjects_`, wide-matrix shape) they are modelled from the spec and the
relevant definitions say so in their doc strings.
-/

namespace AFQ



/-- Errors raised along the Python code paths of `datasets.py`, distinguished
by raise site.  `keyError` models pandas label-selection failures, `valueError`
the explicit `raise ValueError` statements, `typeErrorSetNone` the `TypeError`
from `set(None)` when `target_cols is None` but `label_encode_cols` is given,
and `unboundLocalY` the `UnboundLocalError` from reading `y` at
`y = np.squeeze(y.to_numpy())` when it was never assigned. -/
inductive PyError where
  | keyError (labels : List String)
  | valueError (msg : String)
  | typeErrorSetNone
  | unboundLocalY
  deriving DecidableEq, Repr

/-- `pd.DataFrame(index=subjects).merge(targets, how="left", left_index=True,
right_index=True)` (datasets.py lines 151-153), with phenotype rows of an
arbitrary type `ρ` and `miss` the all-missing row: for each subject in the
feature-matrix order, emit one output row per matching phenotype row, or the
all-missing row when the subject is absent from the phenotype table. -/
def joinOne {ρ : Type} (miss : ρ) (pheno : List (String × ρ)) (s : String) :
    List (String × ρ) :=
  match pheno.filter (fun p => p.1 == s) with
  | [] => [(s, miss)]
  | ms => ms.map fun p => (s, p.2)

def leftJoin {ρ : Type} (miss : ρ) (subjects : List String)
    (pheno : List (String × ρ)) : List (String × ρ) :=
  subjects.flatMap (joinOne miss pheno)

/-- `sklearn.preprocessing.LabelEncoder().fit(vals).classes_`: the sorted list
of the distinct observed values (`numpy.unique`). -/
def leClasses {α : Type} [LinearOrder α] [DecidableEq α] (vals : List α) :
    List α :=
  (List.insertionSort (fun a b => a ≤ b) vals).dedup

/-- The integer code `LabelEncoder` assigns to an observed value: its position
in the sorted array of distinct values. -/
def leCode {α : Type} [LinearOrder α] [DecidableEq α] (vals : List α)
    (v : α) : Nat :=
  (leClasses vals).indexOf v

/-- `LabelEncoder().fit_transform(vals)` (datasets.py line 170): each value is
replaced by its code. -/
def leTransform {α : Type} [LinearOrder α] [DecidableEq α] (vals : List α) :
    List Nat :=
  vals.map (leCode vals)

/-- One CSV cell: `none` models a missing value (NaN). -/
abbrev Cell (α : Type) := Option α

/-- A cell of the selected target frame: missing, a raw categorical value, or
the integer code `LabelEncoder` wrote back in place (datasets.py line 170). -/
inductive YCell (α : Type) where
  | na
  | raw (v : α)
  | code (k : Nat)
  deriving DecidableEq, Repr

/-- Positional column access: the cell of `row` under column name `c`
(first match, `dflt` when the column is absent). -/
def cellAt {β : Type} (dflt : β) (cols : List String) (row : List β)
    (c : String) : β :=
  ((cols.zip row).lookup c).getD dflt

/-- The observed (non-missing, not yet encoded) values of a target cell. -/
def rawVal {α : Type} : YCell α → Option α
  | .raw v => some v
  | _ => none

/-- One iteration of the `for col in label_encode_cols` loop (lines 169-171):
fit the encoder on the column's observed values, write the codes back into
that column, and record `classes_` for the column. -/
def encodeStep {α : Type} [LinearOrder α] [DecidableEq α] (tc : List String)
    (acc : List (List (YCell α)) × List (String × List α)) (c : String) :
    List (List (YCell α)) × List (String × List α) :=
  let obs := (acc.1.map (fun r => cellAt YCell.na tc r c)).filterMap rawVal
  let rows := acc.1.map (fun r =>
    (tc.zip r).map (fun p =>
      if p.1 = c then
        match p.2 with
        | .raw v => YCell.code (leCode obs v)
        | other => other
      else p.2))
  (rows, acc.2 ++ [(c, leClasses obs)])

/-- The shape of `np.squeeze(a)`: every axis of extent 1 is removed. -/
def npSqueezeShape (shape : List Nat) : List Nat :=
  shape.filter (fun d => d ≠ 1)

/-- The message of the `raise ValueError` at datasets.py lines 163-166. -/
def subsetMsg : String := "label_encode_cols must be a subset of target_cols"

instance {ε σ : Type} [DecidableEq ε] [DecidableEq σ] :
    DecidableEq (Except ε σ) := fun a b =>
  match a, b with
  | .error x, .error y =>
      if h : x = y then isTrue (by rw [h])
      else isFalse (by intro hc; cases hc; exact h rfl)
  | .error _, .ok _ => isFalse (by intro hc; cases hc)
  | .ok _, .error _ => isFalse (by intro hc; cases hc)
  | .ok x, .ok y =>
      if h : x = y then isTrue (by rw [h])
      else isFalse (by intro hc; cases hc; exact h rfl)

/-- `y = targets.loc[:, target_cols]` (line 157): the merged frame restricted
to the selected target columns, with missing entries kept as missing. -/
def ySelected {α : Type} (phenoCols : List String)
    (merged : List (String × List (Cell α))) (tc : List String) :
    List (List (YCell α)) :=
  merged.map (fun r => tc.map (fun c =>
    match cellAt none phenoCols r.2 c with
    | some v => YCell.raw v
    | none => YCell.na))

/-- The supervised branch of `load_afq_data` (datasets.py lines 140-173),
from the subject list produced by the pivot and the phenotype table already
read and stripped of unnamed columns: left-join onto the feature-matrix
subjects (lines 151-153), select the target columns (lines 156-157, pandas
`KeyError` on an unknown label), validate and apply label encoding
(lines 160-171), and record the numpy shape of `np.squeeze(y.to_numpy())`
(line 173).  With `target_cols=None` the branch fails: reading `y` raises
`UnboundLocalError`, unless `label_encode_cols` is given, in which case
`set(target_cols)` at line 162 raises `TypeError` first. -/
def loadTargets {α : Type} [LinearOrder α] [DecidableEq α]
    (subjects : List String) (phenoCols : List String)
    (pheno : List (String × List (Cell α)))
    (targetCols labelEncodeCols : Option (List String)) :
    Except PyError
      (List (List (YCell α)) × List (String × List α) × List Nat) :=
  let merged :=
    leftJoin (List.replicate phenoCols.length (none : Cell α)) subjects pheno
  match targetCols with
  | some tc =>
      if ∀ c ∈ tc, c ∈ phenoCols then
        match labelEncodeCols with
        | none =>
            .ok (ySelected phenoCols merged tc, [],
              npSqueezeShape [merged.length, tc.length])
        | some lec =>
            if ∀ c ∈ lec, c ∈ tc then
              let st := lec.foldl (encodeStep tc)
                (ySelected phenoCols merged tc, [])
              .ok (st.1, st.2, npSqueezeShape [merged.length, tc.length])
            else .error (.valueError subsetMsg)
      else .error (.keyError (tc.filter (fun c => !phenoCols.contains c)))
  | none =>
      match labelEncodeCols with
      | none => .error .unboundLocalY
      | some _ => .error .typeErrorSetNone

/-- A pandas DataFrame as read from `nodes.csv`: named columns, rows of raw
CSV cells. -/
structure Table where
  cols : List String
  rows : List (List (Cell String))
  deriving DecidableEq, Repr

/-- The values of column `c`, in row order. -/
def colValues (t : Table) (c : String) : List (Cell String) :=
  t.rows.map (fun r => cellAt none t.cols r c)

/-- Drop the listed columns (pandas `drop(..., axis="columns",
errors="ignore")`). -/
def dropColumns (t : Table) (cs : List String) : Table :=
  { cols := t.cols.filter (fun c => !cs.contains c),
    rows := t.rows.map (fun r =>
      ((t.cols.zip r).filter (fun p => !cs.contains p.1)).map Prod.snd) }

/-- Keep exactly the listed columns in the listed order (pandas `t[cs]`,
assuming every label exists; duplicates in `cs` give duplicate columns). -/
def selectColumns (t : Table) (cs : List String) : Table :=
  { cols := cs, rows := t.rows.map (fun r => cs.map (cellAt none t.cols r)) }

/-- The test `"Unnamed:" in col` of datasets.py line 116. -/
def isUnnamed (c : String) : Bool :=
  decide ("Unnamed:".toList <:+: c.toList)

/-- Lines 116-117: drop incidental index columns. -/
def dropUnnamed (t : Table) : Table :=
  dropColumns t (t.cols.filter isUnnamed)

/-- Line 121: `nodes["subjectID"] = nodes["subjectID"] +
nodes["sessionID"].astype(str)` (missing on either side stays missing). -/
def concatSubjSess (t : Table) : Table :=
  { cols := t.cols,
    rows := t.rows.map (fun r =>
      (t.cols.zip r).map (fun p =>
        if p.1 = "subjectID" then
          match p.2, cellAt none t.cols r "sessionID" with
          | some a, some b => some (a ++ b)
          | _, _ => none
        else p.2)) }

/-- The index columns of the nodes table; every other column is a diffusion
metric column (docstring of `load_afq_data`). -/
def idCols : List String := ["tractID", "nodeID", "subjectID"]

/-- Line 119: the sessionID column as read (after the unnamed-column drop),
or nothing when the nodes table has no such column. -/
def sessionsOf (nodes : Table) : Option (List (Cell String)) :=
  if (dropUnnamed nodes).cols.contains "sessionID"
  then some (colValues (dropUnnamed nodes) "sessionID") else none

/-- Lines 116-123 applied to the nodes table: unnamed-column drop, optional
subject/session concatenation, sessionID drop. -/
def postSessionTable (nodes : Table) (concat : Bool) : Table :=
  dropColumns
    (if concat then concatSubjSess (dropUnnamed nodes) else dropUnnamed nodes)
    ["sessionID"]

/-- The metric columns of a nodes table: all columns except the id columns. -/
def metricColumns (t : Table) : List String :=
  t.cols.filter (fun c => !idCols.contains c)

/-- Lines 115-126 of `load_afq_data`: read the nodes table, record the
session side channel, drop sessionID, and restrict to the requested
diffusion metrics (`nodes[["tractID", "nodeID", "subjectID"] + dwi_metrics]`,
pandas `KeyError` on an unknown label). -/
def loadNodesTable (nodes : Table) (dwiMetrics : Option (List String))
    (concat : Bool) :
    Except PyError (Table × Option (List (Cell String))) :=
  let t2 := postSessionTable nodes concat
  match dwiMetrics with
  | none => .ok (t2, sessionsOf nodes)
  | some ms =>
      if ∀ c ∈ idCols ++ ms, c ∈ t2.cols then
        .ok (selectColumns t2 (idCols ++ ms), sessionsOf nodes)
      else .error (.keyError ((idCols ++ ms).filter
          (fun c => !t2.cols.contains c)))

/-- Modelled from the spec: `AFQDataFrameMapper.subjects_` comes from
`afqinsight/transform.py`, which is not among the sources.  Spec §3
(WideMatrix): rows are "indexed by subjectID (unique, sorted/stable order
established by the pivot)" — one entry per distinct subject of the nodes
table. -/
def mapperSubjects (t : Table) : List (Cell String) :=
  (colValues t "subjectID").dedup

/-- A wide-matrix column key, as in `mapper.feature_names_`:
`(tractID, metric, nodeID)`. -/
abbrev ColKey := String × String × Nat

/-- The `(metric, value)` pairs the unstack at lines 253-258 collects for one
`(tractID, nodeID)` index entry, in coefficient order: the coefficients whose
column key carries that tract and node, labelled by their metric. -/
def metricsFor {α : Type} (β : List α) (cols : List ColKey) (t : String)
    (n : Nat) : List (String × α) :=
  (cols.zip β).filterMap (fun p =>
    if p.1.1 = t ∧ p.1.2.2 = n then some (p.1.2.1, p.2) else none)

/-- The `(tractID, nodeID)` index entries of the unstacked coefficient frame,
one per distinct pair occurring in the column keys. -/
def betaPairs (cols : List ColKey) : List (String × Nat) :=
  (cols.map (fun c => (c.1, c.2.2))).dedup

/-- One long-format row of the synthetic subject. -/
structure BetaRow (α : Type) where
  tract : String
  node : Nat
  subj : String
  mvals : List (String × α)
  deriving DecidableEq, Repr

/-- Lines 253-259: the coefficient vector reshaped back to long format — one
row per `(tractID, nodeID)` pair with one value per metric, all under the
synthetic subject `"beta_hat"`. -/
def betaRows {α : Type} (β : List α) (cols : List ColKey) : List (BetaRow α) :=
  (betaPairs cols).map (fun p => ⟨p.1, p.2, "beta_hat", metricsFor β cols p.1 p.2⟩)

/-- Lines 303-304: the placeholder phenotype row — blank everywhere except
`subjectID`. -/
def betaSubjectRow (scols : List String) : List String :=
  scols.map (fun c => if c = "subjectID" then "beta_hat" else "")

/-- Line 305: `df_subjects.loc[len(df_subjects)] = subject_row` — the
placeholder row appended after the existing rows (the fresh integer label
makes this an append). -/
def appendBetaSubject (scols : List String) (srows : List (List String)) :
    List (List String) :=
  srows ++ [betaSubjectRow scols]

/-- An IEEE-style extended value, as produced by the pandas/numpy float
arithmetic of the rescaling step: a finite value, an infinity, or NaN. -/
inductive PV where
  | num (x : ℝ)
  | pinf
  | ninf
  | nan

/-- Empirical mean of a pandas Series (`.mean()`). -/
noncomputable def meanR (l : List ℝ) : ℝ := l.sum / l.length

/-- Sample standard deviation of a pandas Series (`.std()`, `ddof=1`): NaN
for fewer than two values, else the square root of the unbiased variance. -/
noncomputable def stdR (l : List ℝ) : PV :=
  if l.length < 2 then PV.nan
  else PV.num (Real.sqrt
    ((l.map (fun x => (x - meanR l) ^ 2)).sum / ((l.length : ℝ) - 1)))

/-- IEEE float division on extended values (`Series.divide`): a nonzero value
over zero gives a signed infinity, zero over zero gives NaN, NaN and
infinity-over-infinity cases give NaN, finite over infinite gives zero. -/
noncomputable def PV.div : PV → PV → PV
  | .num a, .num b =>
      if b = 0 then (if 0 < a then .pinf else if a < 0 then .ninf else .nan)
      else .num (a / b)
  | .pinf, .num b => if 0 ≤ b then .pinf else .ninf
  | .ninf, .num b => if 0 ≤ b then .ninf else .pinf
  | .num _, .pinf => .num 0
  | .num _, .ninf => .num 0
  | _, _ => .nan

/-- `.replace([np.inf, -np.inf], 1)` (line 297): infinities become 1; finite
values and NaN are left alone. -/
def PV.replaceInfOne : PV → PV
  | .pinf => .num 1
  | .ninf => .num 1
  | p => p

/-- `f_mean + (x - b_mean) * r` with IEEE propagation in the scale factor
`r`: multiplying a zero difference by an infinity gives NaN, and NaN
contaminates the whole expression. -/
noncomputable def pvScale (fm bm x : ℝ) : PV → PV
  | .num r => .num (fm + (x - bm) * r)
  | .pinf => if 0 < x - bm then .pinf else if x - bm < 0 then .ninf else .nan
  | .ninf => if 0 < x - bm then .ninf else if x - bm < 0 then .pinf else .nan
  | .nan => .nan

/-- One long-format row of a nodes table on the inverse-projection path:
metric values are floats, aligned with a fixed metric-column list. -/
structure NodeRow where
  tract : String
  node : Nat
  subj : String
  vals : List ℝ

/-- The values of metric column `j` over the rows of tract `t` (the
`.drop([...]).loc[df["tractID"] == tract]` slices of lines 269-292). -/
def tractSlice (rows : List NodeRow) (t : String) (j : Nat) : List ℝ :=
  (rows.filter (fun r => r.tract == t)).map (fun r => r.vals.getD j 0)

/-- The rescaled value of a synthetic cell (lines 295-297): the scale factor
is `f_std / b_std` with infinities replaced by 1, applied as
`f_mean + (x - b_mean) * factor`. -/
noncomputable def scaledVal (nodes beta : List NodeRow) (t : String) (j : Nat)
    (x : ℝ) : PV :=
  pvScale (meanR (tractSlice nodes t j)) (meanR (tractSlice beta t j)) x
    (((stdR (tractSlice nodes t j)).div (stdR (tractSlice beta t j))).replaceInfOne)

/-- A long-format row after the rescaling step (cells may have become NaN). -/
structure PVRow where
  tract : String
  node : Nat
  subj : String
  vals : List PV

/-- A row untouched by rescaling, with its finite values. -/
def liftRow (r : NodeRow) : PVRow :=
  ⟨r.tract, r.node, r.subj, r.vals.map PV.num⟩

/-- Lines 262-297: for every tract of the real nodes table, rescale the
synthetic rows of that tract cell by cell; synthetic rows whose tract never
occurs in the real table are left untouched by the loop. -/
noncomputable def scaleBeta (nodes beta : List NodeRow) : List PVRow :=
  beta.map (fun r =>
    if (nodes.map NodeRow.tract).contains r.tract then
      ⟨r.tract, r.node, r.subj,
        r.vals.enum.map (fun p => scaledVal nodes beta r.tract p.1 p.2)⟩
    else liftRow r)

/-- Line 260 (`df_beta = df_beta[df_nodes.columns]`): the reshaped
coefficient rows with values aligned to the nodes table's metric columns.
(A metric with no coefficient for some pair would be NaN in pandas; the
claims' inputs always cover every metric, so `0` marks that unexercised
case.) -/
def betaNodeRows (β : List ℝ) (cols : List ColKey) (metrics : List String) :
    List NodeRow :=
  (betaRows β cols).map (fun r =>
    ⟨r.tract, r.node, r.subj, metrics.map (fun m => (r.mvals.lookup m).getD 0)⟩)

/-- The configuration arguments of `output_beta_to_afq` (directories already
normalized by `op.abspath`; `op.samefile` on existing directories holds for
equal normalized paths). -/
structure BetaConfig where
  workdirIn : String
  workdirOut : String
  fnNodesIn : String
  fnSubjectsIn : String
  fnNodesOut : String
  fnSubjectsOut : String
  scale : Bool

/-- `os.path.join`. -/
def pathJoin (d f : String) : String := d ++ "/" ++ f

/-- The message of the `raise ValueError` at lines 245-249. -/
def sameDirMsg : String :=
  "output directory equals input directory, please output to a different directory to avoid overwriting your files."

/-- A file-system effect of `output_beta_to_afq`, in program order. -/
inductive FileOp where
  | readData (path : String)
  | writeData (path : String)
  | copyData (src dst : String)
  deriving DecidableEq, Repr

/-- `output_beta_to_afq` (datasets.py lines 192-318): guard against writing
into the input directory, reshape the coefficients into the synthetic
subject, optionally rescale, append to the nodes and subjects tables, and
write the outputs plus the two copied sidecar files.  The result carries the
output tables, the returned `OutputFiles` paths, and the file operations
performed, in order; the error path performs none. -/
noncomputable def output_beta_to_afq (β : List ℝ) (cols : List ColKey)
    (metrics : List String) (nodesTable : List NodeRow)
    (subjCols : List String) (subjRows : List (List String))
    (cfg : BetaConfig) :
    Except PyError
      ((List PVRow × List (List String)) × (String × String) × List FileOp) :=
  if cfg.workdirIn = cfg.workdirOut then
    .error (.valueError sameDirMsg)
  else
    let dfBeta := betaNodeRows β cols metrics
    let nodesOut := (nodesTable.map liftRow)
      ++ (if cfg.scale then scaleBeta nodesTable dfBeta
          else dfBeta.map liftRow)
    let subjOut := appendBetaSubject subjCols subjRows
    .ok ((nodesOut, subjOut),
      (pathJoin cfg.workdirOut cfg.fnNodesOut,
       pathJoin cfg.workdirOut cfg.fnSubjectsOut),
      [.readData (pathJoin cfg.workdirIn cfg.fnNodesIn),
       .writeData (pathJoin cfg.workdirOut cfg.fnNodesOut),
       .readData (pathJoin cfg.workdirIn cfg.fnSubjectsIn),
       .writeData (pathJoin cfg.workdirOut cfg.fnSubjectsOut),
       .copyData (pathJoin cfg.workdirIn "streamlines.json")
         (pathJoin cfg.workdirOut "streamlines.json"),
       .copyData (pathJoin cfg.workdirIn "params.json")
         (pathJoin cfg.workdirOut "params.json")])

theorem filter_key_of_nodup {ρ : Type} (pheno : List (String × ρ)) (s : String)
    (h : (pheno.map Prod.fst).Nodup) :
    pheno.filter (fun p => p.1 == s)
      = (pheno.lookup s).elim [] (fun r => [(s, r)]) := by
  induction pheno with
  | nil => simp [List.lookup]
  | cons p rest ih =>
    obtain ⟨k, v⟩ := p
    simp only [List.map_cons, List.nodup_cons] at h
    by_cases hk : k = s
    · subst hk
      have hrest : rest.filter (fun p => p.1 == k) = [] := by
        rw [List.filter_eq_nil_iff]
        intro a ha
        intro hbeq
        exact h.1 (List.mem_map.mpr ⟨a, ha, by simpa using hbeq⟩)
      simp [List.lookup, List.filter_cons, hrest]
    · have hbeq : (k == s) = false := by simpa using hk
      have hbeq2 : (s == k) = false := by simpa using Ne.symm hk
      simp [List.lookup, List.filter_cons, hbeq, hbeq2, ih h.2]

theorem leftJoin_eq_map {ρ : Type} (miss : ρ) (subjects : List String)
    (pheno : List (String × ρ)) (h : (pheno.map Prod.fst).Nodup) :
    leftJoin miss subjects pheno
      = subjects.map (fun s => (s, (pheno.lookup s).getD miss)) := by
  induction subjects with
  | nil => rfl
  | cons s rest ih =>
    have hstep : leftJoin miss (s :: rest) pheno
        = joinOne miss pheno s ++ leftJoin miss rest pheno := by
      simp [leftJoin]
    have hone : joinOne miss pheno s
        = [(s, (pheno.lookup s).getD miss)] := by
      rw [joinOne, filter_key_of_nodup pheno s h]
      cases hl : pheno.lookup s <;> simp
    rw [hstep, hone, ih]
    simp

/-- C1: when every phenotype row has a distinct subject key (the data model of
the spec: one phenotype row per subject), the merged target frame built by
`load_afq_data` has exactly one row per feature-matrix subject, in the same
order; subjects absent from the phenotype table get the all-missing row, and
no other phenotype rows survive. -/
theorem C1_target_alignment {ρ : Type} (miss : ρ) (subjects : List String)
    (pheno : List (String × ρ)) (h : (pheno.map Prod.fst).Nodup) :
    leftJoin miss subjects pheno
        = subjects.map (fun s => (s, (pheno.lookup s).getD miss))
      ∧ (leftJoin miss subjects pheno).map Prod.fst = subjects
      ∧ (leftJoin miss subjects pheno).length = subjects.length := by
  have main := leftJoin_eq_map miss subjects pheno h
  refine ⟨main, ?_, ?_⟩
  · simp [main, Function.comp_def]
  · simp [main]

/-- Witness for C1 at a concrete input: two feature-matrix subjects, a
phenotype table knowing only the first one. -/
theorem C1_target_alignment_witness :
    leftJoin [none] ["s1", "s2"] [("s1", [some "a"])]
      = [("s1", [some "a"]), ("s2", [(none : Option String)])] := by
  have h := (C1_target_alignment [(none : Option String)] ["s1", "s2"]
    [("s1", [some "a"])] (by decide)).1
  rw [h]
  decide

theorem leClasses_sorted {α : Type} [LinearOrder α] [DecidableEq α]
    (vals : List α) : (leClasses vals).Sorted (· < ·) := by
  have hsort : (List.insertionSort (fun a b => a ≤ b) vals).Sorted (· ≤ ·) :=
    List.sorted_insertionSort _ vals
  have hsub : (leClasses vals).Sorted (· ≤ ·) :=
    List.Pairwise.sublist (List.dedup_sublist _) hsort
  exact List.Sorted.lt_of_le hsub (List.nodup_dedup _)

theorem mem_leClasses {α : Type} [LinearOrder α] [DecidableEq α]
    (vals : List α) (v : α) : v ∈ leClasses vals ↔ v ∈ vals := by
  unfold leClasses
  rw [List.mem_dedup]
  exact (List.perm_insertionSort _ vals).mem_iff

/-- C3: the label encoder replaces each distinct observed categorical value by
a dense zero-based integer code assigned in sorted order of the original
values (classes are the sorted distinct observed values, every code is below
the class count, every position is the code of some observed value, and codes
respect the value order), and decoding a row's code through the returned
classes recovers exactly that row's original value. -/
theorem C3_label_encoding {α : Type} [LinearOrder α] [DecidableEq α]
    (vals : List α) :
    (leClasses vals).Sorted (· < ·)
      ∧ (∀ v, v ∈ leClasses vals ↔ v ∈ vals)
      ∧ (∀ v ∈ vals, leCode vals v < (leClasses vals).length)
      ∧ (∀ i, i < (leClasses vals).length → ∃ v ∈ vals, leCode vals v = i)
      ∧ (∀ u ∈ vals, ∀ v ∈ vals, u < v → leCode vals u < leCode vals v)
      ∧ (∀ i, ∀ hi : i < vals.length,
          (leClasses vals).get? ((leTransform vals).get ⟨i, by
            simpa [leTransform] using hi⟩) = some (vals.get ⟨i, hi⟩)) := by
  have hmem := fun v => mem_leClasses vals v
  have hsorted := leClasses_sorted vals
  have hnodup : (leClasses vals).Nodup := List.nodup_dedup _
  have hbound : ∀ v ∈ vals, leCode vals v < (leClasses vals).length := by
    intro v hv
    exact List.indexOf_lt_length.mpr ((hmem v).mpr hv)
  refine ⟨hsorted, hmem, hbound, ?_, ?_, ?_⟩
  · intro i hi
    refine ⟨(leClasses vals).get ⟨i, hi⟩,
      (hmem _).mp (List.get_mem _ _ _), ?_⟩
    have hv : (leClasses vals).get ⟨i, hi⟩ ∈ leClasses vals :=
      List.get_mem _ _ _
    have hlt : leCode vals ((leClasses vals).get ⟨i, hi⟩)
        < (leClasses vals).length := List.indexOf_lt_length.mpr hv
    have hg : (leClasses vals).get ⟨leCode vals _, hlt⟩
        = (leClasses vals).get ⟨i, hi⟩ := List.indexOf_get hlt
    have := (List.Nodup.get_inj_iff hnodup).mp hg
    exact congrArg Fin.val this
  · intro u hu v hv huv
    have hcu : leCode vals u < (leClasses vals).length := hbound u hu
    have hcv : leCode vals v < (leClasses vals).length := hbound v hv
    have hgu : (leClasses vals).get ⟨leCode vals u, hcu⟩ = u :=
      List.indexOf_get hcu
    have hgv : (leClasses vals).get ⟨leCode vals v, hcv⟩ = v :=
      List.indexOf_get hcv
    rcases lt_trichotomy (leCode vals u) (leCode vals v) with h | h | h
    · exact h
    · exfalso
      apply lt_irrefl u
      have : u = v := by rw [← hgu, ← hgv]; congr 1; exact Fin.ext h
      rw [this] at huv ⊢
      exact huv
    · exfalso
      have hlt : v < u := by
        have := List.Sorted.rel_get_of_lt hsorted
          (a := ⟨leCode vals v, hcv⟩) (b := ⟨leCode vals u, hcu⟩) h
        rwa [hgu, hgv] at this
      exact lt_asymm huv hlt
  · intro i hi
    have hv : vals.get ⟨i, hi⟩ ∈ vals := List.get_mem _ _ _
    have hget : (leTransform vals).get ⟨i, by simpa [leTransform] using hi⟩
        = leCode vals (vals.get ⟨i, hi⟩) := by
      simp [leTransform]
    rw [hget]
    exact List.indexOf_get? ((hmem _).mpr hv)

/-- Witness for C3 at a concrete column: values `[2, 1, 2]` get classes
`[1, 2]`, codes `[1, 0, 1]`, and decoding recovers the originals. -/
theorem C3_label_encoding_witness :
    leClasses [2, 1, 2] = [1, 2]
      ∧ leTransform [2, 1, 2] = [1, 0, 1]
      ∧ (leClasses [(2 : Nat), 1, 2]).get? (leCode [2, 1, 2] 2) = some 2 := by
  refine ⟨by decide, by decide, ?_⟩
  have h := ((C3_label_encoding [(2 : Nat), 1, 2]).2.2.2.2.2) 0 (by decide)
  simpa [leTransform, leCode] using h

/-- C2: with a valid target-column selection, a `label_encode_cols` that is
not a subset of `target_cols` makes the supervised branch fail with the
validation `ValueError`; a subset never triggers that error (the branch
succeeds). -/
theorem C2_label_encode_subset_validation {α : Type} [LinearOrder α]
    [DecidableEq α] (subjects phenoCols : List String)
    (pheno : List (String × List (Cell α))) (tc lec : List String)
    (hsel : ∀ c ∈ tc, c ∈ phenoCols) :
    (¬ (∀ c ∈ lec, c ∈ tc) →
        loadTargets subjects phenoCols pheno (some tc) (some lec)
          = .error (.valueError subsetMsg))
      ∧ ((∀ c ∈ lec, c ∈ tc) →
        ∀ e, loadTargets subjects phenoCols pheno (some tc) (some lec)
          ≠ .error e) := by
  constructor
  · intro hns
    simp only [loadTargets]
    rw [if_pos hsel, if_neg hns]
  · intro hsub e
    simp only [loadTargets]
    rw [if_pos hsel, if_pos hsub]
    intro hc
    cases hc

/-- Witness for C2 at concrete inputs: `label_encode_cols = ["b"]` with
`target_cols = ["a"]` raises the validation error; `["a"]` does not. -/
theorem C2_label_encode_subset_validation_witness :
    loadTargets ["s1"] ["a", "b"] [("s1", [some (1 : Nat), some 2])]
        (some ["a"]) (some ["b"])
      = .error (.valueError subsetMsg)
      ∧ loadTargets ["s1"] ["a", "b"] [("s1", [some (1 : Nat), some 2])]
        (some ["a"]) (some ["a"])
      ≠ .error (.valueError subsetMsg) := by
  constructor
  · exact (C2_label_encode_subset_validation ["s1"] ["a", "b"]
      [("s1", [some (1 : Nat), some 2])] ["a"] ["b"] (by decide)).1 (by decide)
  · exact (C2_label_encode_subset_validation ["s1"] ["a", "b"]
      [("s1", [some (1 : Nat), some 2])] ["a"] ["a"] (by decide)).2
      (by decide) _

theorem npSqueezeShape_pair (n k : Nat) (hn : n ≠ 1) (hk : 1 ≤ k) :
    npSqueezeShape [n, k] = if k = 1 then [n] else [n, k] := by
  by_cases h1 : k = 1
  · simp [npSqueezeShape, hn, h1]
  · simp [npSqueezeShape, hn, h1]

/-- C4 counterexample: with exactly one feature-matrix subject and two
selected target columns, `np.squeeze` flattens the `(1, 2)` target matrix to
a 1-D array of length 2 — not the 2-D row-aligned matrix the claim promises
for multiple target columns. -/
theorem C4_counterexample :
    loadTargets ["s1"] ["a", "b"] [("s1", [some (1 : Nat), some 2])]
        (some ["a", "b"]) none
      = .ok ([[YCell.raw 1, YCell.raw 2]], [], [2])
      ∧ ([2] : List Nat).length ≠ 2 := by
  constructor
  · decide
  · decide

/-- C4 (amended): provided there are not exactly one feature-matrix subject
(`np.squeeze` would also drop that axis) and at least one target column is
selected, the squeezed target is 1-D of length `n_subjects` when exactly one
target column is selected, and the 2-D `n_subjects × n_targets` matrix when
more are. -/
theorem C4_squeeze_shape {α : Type} [LinearOrder α] [DecidableEq α]
    (subjects phenoCols : List String)
    (pheno : List (String × List (Cell α)))
    (tc : List String) (lec : Option (List String))
    (hsel : ∀ c ∈ tc, c ∈ phenoCols)
    (hlec : ∀ l, lec = some l → ∀ c ∈ l, c ∈ tc)
    (hnd : (pheno.map Prod.fst).Nodup)
    (hn1 : subjects.length ≠ 1) (hk : 1 ≤ tc.length) :
    ∃ rows classes,
      loadTargets subjects phenoCols pheno (some tc) lec
        = .ok (rows, classes,
            if tc.length = 1 then [subjects.length]
            else [subjects.length, tc.length]) := by
  have hmerged :
      (leftJoin (List.replicate phenoCols.length (none : Cell α))
        subjects pheno).length = subjects.length := by
    rw [leftJoin_eq_map _ _ _ hnd]
    simp
  have hshape := npSqueezeShape_pair subjects.length tc.length hn1 hk
  cases lec with
  | none =>
      refine ⟨ySelected phenoCols
        (leftJoin (List.replicate phenoCols.length (none : Cell α))
          subjects pheno) tc, [], ?_⟩
      simp only [loadTargets]
      rw [if_pos hsel, hmerged, hshape]
  | some l =>
      have hsub : ∀ c ∈ l, c ∈ tc := hlec l rfl
      refine ⟨(l.foldl (encodeStep tc) (ySelected phenoCols
          (leftJoin (List.replicate phenoCols.length (none : Cell α))
            subjects pheno) tc, [])).1,
        (l.foldl (encodeStep tc) (ySelected phenoCols
          (leftJoin (List.replicate phenoCols.length (none : Cell α))
            subjects pheno) tc, [])).2, ?_⟩
      simp only [loadTargets]
      rw [if_pos hsel, if_pos hsub, hmerged, hshape]

/-- Witness for C4 (amended) at a concrete input: two subjects, one target
column, squeezed shape `[2]`. -/
theorem C4_squeeze_shape_witness :
    loadTargets ["s1", "s2"] ["a"] [("s1", [some (1 : Nat)]), ("s2", [some 2])]
        (some ["a"]) none
      = .ok ([[YCell.raw 1], [YCell.raw 2]], [], [2]) := by
  have h := C4_squeeze_shape ["s1", "s2"] ["a"]
    [("s1", [some (1 : Nat)]), ("s2", [some 2])] ["a"] none
    (by decide) (by intro l hl; cases hl) (by decide) (by decide) (by decide)
  obtain ⟨rows, classes, h⟩ := h
  exact by decide

/-- C10 counterexample: with `target_cols=None` but `label_encode_cols`
supplied, the failure is the `TypeError` from `set(None)` at line 162, not an
unbound-variable error. -/
theorem C10_counterexample :
    loadTargets (α := Nat) ["s1"] ["a"] [("s1", [some 1])] none (some ["a"])
        = .error .typeErrorSetNone
      ∧ PyError.typeErrorSetNone ≠ PyError.unboundLocalY := by
  constructor
  · decide
  · decide

/-- C10 (amended): every supervised call with `target_cols` omitted fails
before returning and produces no target structure: reading the never-assigned
`y` raises `UnboundLocalError` when `label_encode_cols` is also omitted, and
`set(target_cols)` raises `TypeError` first when `label_encode_cols` is
supplied. -/
theorem C10_no_target_cols {α : Type} [LinearOrder α] [DecidableEq α]
    (subjects phenoCols : List String)
    (pheno : List (String × List (Cell α))) (lec : Option (List String)) :
    loadTargets subjects phenoCols pheno none lec
      = .error (if lec.isSome then PyError.typeErrorSetNone
          else PyError.unboundLocalY) := by
  cases lec <;> simp [loadTargets]

/-- C8 counterexample: requesting `dwi_metrics=["subjectID"]` — a name that
is a column but not a metric column — does not fail: the selection succeeds
(with a duplicated subjectID column), contradicting the claim that any
requested name that is not a metric column raises a configuration error. -/
theorem C8_counterexample :
    loadNodesTable
        ⟨["tractID", "nodeID", "subjectID", "fa"],
          [[some "T", some "0", some "s1", some "0.5"]]⟩
        (some ["subjectID"]) false
      = .ok (⟨["tractID", "nodeID", "subjectID", "subjectID"],
          [[some "T", some "0", some "s1", some "s1"]]⟩, none)
      ∧ "subjectID" ∉ metricColumns (postSessionTable
          ⟨["tractID", "nodeID", "subjectID", "fa"],
            [[some "T", some "0", some "s1", some "0.5"]]⟩ false) := by
  constructor
  · decide
  · decide

/-- C8 (amended): the metric request fails with the pandas `KeyError`
(a configuration error) exactly when some requested name is not a column of
the session-stripped nodes table; requested names that are columns are
accepted, and when every requested name is a metric column the resulting
feature table's metric columns are exactly the requested list, in order. -/
theorem C8_metric_selection (nodes : Table) (ms : List String)
    (concat : Bool) :
    ((∃ c ∈ idCols ++ ms, c ∉ (postSessionTable nodes concat).cols) →
        loadNodesTable nodes (some ms) concat
          = .error (.keyError ((idCols ++ ms).filter
              (fun c => !(postSessionTable nodes concat).cols.contains c))))
      ∧ ((∀ c ∈ idCols ++ ms, c ∈ (postSessionTable nodes concat).cols) →
        loadNodesTable nodes (some ms) concat
          = .ok (selectColumns (postSessionTable nodes concat) (idCols ++ ms),
              sessionsOf nodes))
      ∧ ((∀ c ∈ ms, c ∈ metricColumns (postSessionTable nodes concat)) →
        metricColumns (selectColumns (postSessionTable nodes concat)
          (idCols ++ ms)) = ms) := by
  refine ⟨?_, ?_, ?_⟩
  · intro hbad
    have hneg : ¬ ∀ c ∈ idCols ++ ms, c ∈ (postSessionTable nodes concat).cols := by
      intro hall
      obtain ⟨c, hc, hnot⟩ := hbad
      exact hnot (hall c hc)
    simp only [loadNodesTable]
    rw [if_neg hneg]
  · intro hall
    simp only [loadNodesTable]
    rw [if_pos hall]
  · intro hms
    have hid : idCols.filter (fun c => !idCols.contains c) = [] := by decide
    have hm : ms.filter (fun c => !idCols.contains c) = ms := by
      rw [List.filter_eq_self]
      intro c hc
      have := hms c hc
      unfold metricColumns at this
      exact (List.mem_filter.mp this).2
    simp only [metricColumns, selectColumns, List.filter_append, hid, hm,
      List.nil_append]

/-- Witness for C8 (amended) at a concrete input: requesting the metric
column `"fa"` restricts the feature space to exactly `["fa"]`. -/
theorem C8_metric_selection_witness :
    loadNodesTable
        ⟨["tractID", "nodeID", "subjectID", "fa", "md"],
          [[some "T", some "0", some "s1", some "0.5", some "0.7"]]⟩
        (some ["fa"]) false
      = .ok (⟨["tractID", "nodeID", "subjectID", "fa"],
          [[some "T", some "0", some "s1", some "0.5"]]⟩, none)
      ∧ metricColumns (selectColumns (postSessionTable
          ⟨["tractID", "nodeID", "subjectID", "fa", "md"],
            [[some "T", some "0", some "s1", some "0.5", some "0.7"]]⟩ false)
          (idCols ++ ["fa"])) = ["fa"] := by
  constructor
  · exact ((C8_metric_selection
      ⟨["tractID", "nodeID", "subjectID", "fa", "md"],
        [[some "T", some "0", some "s1", some "0.5", some "0.7"]]⟩
      ["fa"] false).2.1 (by decide)).trans (by decide)
  · exact (C8_metric_selection
      ⟨["tractID", "nodeID", "subjectID", "fa", "md"],
        [[some "T", some "0", some "s1", some "0.5", some "0.7"]]⟩
      ["fa"] false).2.2 (by decide)

/-- C9 counterexample: the session side channel is the raw per-row sessionID
column of the long-format nodes table, not one entry per subject: two rows of
the same subject yield two session entries but a single pivot subject. -/
theorem C9_counterexample :
    loadNodesTable
        ⟨["subjectID", "sessionID", "tractID", "nodeID", "fa"],
          [[some "s1", some "ses1", some "T", some "0", some "0.5"],
           [some "s1", some "ses1", some "T", some "1", some "0.6"]]⟩
        none false
      = .ok (⟨["subjectID", "tractID", "nodeID", "fa"],
          [[some "s1", some "T", some "0", some "0.5"],
           [some "s1", some "T", some "1", some "0.6"]]⟩,
          some [some "ses1", some "ses1"])
      ∧ (mapperSubjects ⟨["subjectID", "tractID", "nodeID", "fa"],
          [[some "s1", some "T", some "0", some "0.5"],
           [some "s1", some "T", some "1", some "0.6"]]⟩).length = 1
      ∧ ([some "ses1", some "ses1"] : List (Cell String)).length ≠ 1 := by
  refine ⟨?_, ?_, ?_⟩
  · decide
  · decide
  · decide

/-- C9 (amended): when the nodes table has a sessionID column,
`load_afq_data` drops it from the feature space and returns the raw column as
the side channel — one entry per long-format row of the nodes table, in the
nodes table's row order (not one entry per pivot subject). -/
theorem C9_sessions_side_channel (nodes : Table) (dwi : Option (List String))
    (concat : Bool) (hs : "sessionID" ∈ (dropUnnamed nodes).cols) :
    sessionsOf nodes = some (colValues (dropUnnamed nodes) "sessionID")
      ∧ ((sessionsOf nodes).getD []).length = (dropUnnamed nodes).rows.length
      ∧ "sessionID" ∉ (postSessionTable nodes concat).cols
      ∧ (∀ t sess, loadNodesTable nodes dwi concat = .ok (t, sess) →
          sess = sessionsOf nodes ∧ "sessionID" ∉ t.cols) := by
  have hsess : sessionsOf nodes
      = some (colValues (dropUnnamed nodes) "sessionID") := by
    unfold sessionsOf
    rw [if_pos (by simpa using hs)]
  have hdrop : "sessionID" ∉ (postSessionTable nodes concat).cols := by
    unfold postSessionTable dropColumns
    intro hmem
    have := (List.mem_filter.mp hmem).2
    simp at this
  refine ⟨hsess, ?_, hdrop, ?_⟩
  · rw [hsess]
    simp [colValues]
  · intro t sess hok
    cases dwi with
    | none =>
        simp only [loadNodesTable] at hok
        cases hok
        exact ⟨rfl, hdrop⟩
    | some ms =>
        simp only [loadNodesTable] at hok
        by_cases hall : ∀ c ∈ idCols ++ ms, c ∈ (postSessionTable nodes concat).cols
        · rw [if_pos hall] at hok
          cases hok
          refine ⟨rfl, ?_⟩
          intro hmem
          simp only [selectColumns] at hmem
          have : "sessionID" ∈ (postSessionTable nodes concat).cols :=
            hall _ hmem
          exact hdrop this
        · rw [if_neg hall] at hok
          cases hok

/-- Witness for C9 (amended) at a concrete input with a sessionID column. -/
theorem C9_sessions_side_channel_witness :
    sessionsOf ⟨["subjectID", "sessionID", "tractID", "nodeID", "fa"],
        [[some "s1", some "ses1", some "T", some "0", some "0.5"]]⟩
      = some [some "ses1"]
      ∧ "sessionID" ∉ (postSessionTable
          ⟨["subjectID", "sessionID", "tractID", "nodeID", "fa"],
            [[some "s1", some "ses1", some "T", some "0", some "0.5"]]⟩
          false).cols := by
  have h := C9_sessions_side_channel
    ⟨["subjectID", "sessionID", "tractID", "nodeID", "fa"],
      [[some "s1", some "ses1", some "T", some "0", some "0.5"]]⟩
    none false (by decide)
  exact ⟨h.1.trans (by decide), h.2.2.1⟩

/-- C5: when the output directory equals the input directory,
`output_beta_to_afq` fails with the configuration `ValueError` and the result
carries no file operations: nothing is read, written, or copied — in
particular no output file is created or modified. -/
theorem C5_same_dir_guard (β : List ℝ) (cols : List ColKey)
    (metrics : List String) (nodesTable : List NodeRow)
    (subjCols : List String) (subjRows : List (List String))
    (cfg : BetaConfig) (h : cfg.workdirIn = cfg.workdirOut) :
    output_beta_to_afq β cols metrics nodesTable subjCols subjRows cfg
      = .error (.valueError sameDirMsg) := by
  simp only [output_beta_to_afq]
  rw [if_pos h]

/-- Witness for C5 at a concrete input: both directories `"d"`. -/
theorem C5_same_dir_guard_witness :
    output_beta_to_afq [] [] [] [] [] []
        ⟨"d", "d", "nodes.csv", "subjects.csv", "nodes.csv", "subjects.csv",
          false⟩
      = .error (.valueError sameDirMsg) :=
  C5_same_dir_guard [] [] [] [] [] [] _ rfl

theorem stdR_nonneg (l : List ℝ) (s : ℝ) (h : stdR l = .num s) : 0 ≤ s := by
  unfold stdR at h
  by_cases h2 : l.length < 2
  · rw [if_pos h2] at h
    cases h
  · rw [if_neg h2] at h
    injection h with h3
    rw [← h3]
    exact Real.sqrt_nonneg _

theorem stdR_cases (l : List ℝ) :
    (∃ s, stdR l = .num s) ∨ stdR l = .nan := by
  unfold stdR
  by_cases h : l.length < 2
  · right
    rw [if_pos h]
  · left
    exact ⟨_, by rw [if_neg h]⟩

/-- C6 (amended): for each tract and metric the synthetic values are replaced
by `f_mean + (x - b_mean) * f_std / b_std`; an infinite ratio (zero `b_std`
with nonzero `f_std`) is replaced so the scale factor is 1; but a NaN ratio —
both standard deviations zero, or either one undefined (a slice of fewer than
two values) — is NOT replaced by `.replace([np.inf, -np.inf], 1)`, and the
NaN propagates into the output values. -/
theorem C6_scale_formula (nodes beta : List NodeRow) (t : String) (j : Nat)
    (x : ℝ) :
    (∀ fs bs, stdR (tractSlice nodes t j) = .num fs →
        stdR (tractSlice beta t j) = .num bs → bs ≠ 0 →
        scaledVal nodes beta t j x
          = .num (meanR (tractSlice nodes t j)
              + (x - meanR (tractSlice beta t j)) * (fs / bs)))
      ∧ (∀ fs, stdR (tractSlice nodes t j) = .num fs → fs ≠ 0 →
        stdR (tractSlice beta t j) = .num 0 →
        scaledVal nodes beta t j x
          = .num (meanR (tractSlice nodes t j)
              + (x - meanR (tractSlice beta t j)) * 1))
      ∧ (stdR (tractSlice nodes t j) = .num 0 →
        stdR (tractSlice beta t j) = .num 0 →
        scaledVal nodes beta t j x = .nan)
      ∧ (stdR (tractSlice nodes t j) = .nan →
        scaledVal nodes beta t j x = .nan)
      ∧ (stdR (tractSlice beta t j) = .nan →
        scaledVal nodes beta t j x = .nan) := by
  refine ⟨?_, ?_, ?_, ?_, ?_⟩
  · intro fs bs hf hb hbs
    unfold scaledVal
    rw [hf, hb]
    simp [PV.div, hbs, PV.replaceInfOne, pvScale]
  · intro fs hf hfs hb
    have h0 : 0 ≤ fs := stdR_nonneg _ _ hf
    have hpos : 0 < fs := lt_of_le_of_ne h0 (Ne.symm hfs)
    unfold scaledVal
    rw [hf, hb]
    simp [PV.div, hpos, PV.replaceInfOne, pvScale]
  · intro hf hb
    unfold scaledVal
    rw [hf, hb]
    simp [PV.div, PV.replaceInfOne, pvScale]
  · intro hf
    unfold scaledVal
    rw [hf]
    rcases stdR_cases (tractSlice beta t j) with ⟨s, hb⟩ | hb <;> rw [hb] <;>
      simp [PV.div, PV.replaceInfOne, pvScale]
  · intro hb
    unfold scaledVal
    rw [hb]
    rcases stdR_cases (tractSlice nodes t j) with ⟨s, hf⟩ | hf <;> rw [hf] <;>
      simp [PV.div, PV.replaceInfOne, pvScale]

/-- C6 counterexample: a tract whose real slice and synthetic slice are both
constant has `f_std = b_std = 0`; the ratio `0 / 0` is NaN, which
`.replace([np.inf, -np.inf], 1)` does not touch, so the output value is NaN —
contradicting the claim that a zero `b_std` always yields scale factor 1 and
that no NaN propagates into the output. -/
theorem C6_counterexample :
    scaledVal [⟨"t", 0, "s", [1]⟩, ⟨"t", 1, "s", [1]⟩]
        [⟨"t", 0, "beta_hat", [2]⟩, ⟨"t", 1, "beta_hat", [2]⟩] "t" 0 2
      = PV.nan := by
  have hf : tractSlice [⟨"t", 0, "s", [1]⟩, ⟨"t", 1, "s", [1]⟩] "t" 0
      = [1, 1] := rfl
  have hb : tractSlice [⟨"t", 0, "beta_hat", [2]⟩, ⟨"t", 1, "beta_hat", [2]⟩]
      "t" 0 = [2, 2] := rfl
  have hstdf : stdR ([1, 1] : List ℝ) = .num 0 := by
    unfold stdR
    rw [if_neg (by norm_num)]
    norm_num [meanR]
  have hstdb : stdR ([2, 2] : List ℝ) = .num 0 := by
    unfold stdR
    rw [if_neg (by norm_num)]
    norm_num [meanR]
  unfold scaledVal
  rw [hf, hb, hstdf, hstdb]
  simp [PV.div, PV.replaceInfOne, pvScale]

/-- Witness for C6 (amended) at a concrete input exercising the
infinite-ratio fallback: real slice `[1, 3]` (`f_std = √2 ≠ 0`), synthetic
slice `[2, 2]` (`b_std = 0`), so the factor is 1 and the value `5` maps to
`f_mean + (5 - b_mean) * 1 = 5`. -/
theorem C6_scale_formula_witness :
    scaledVal [⟨"t", 0, "s", [1]⟩, ⟨"t", 1, "s", [3]⟩]
        [⟨"t", 0, "beta_hat", [2]⟩, ⟨"t", 1, "beta_hat", [2]⟩] "t" 0 5
      = .num 5 := by
  have hf : tractSlice [⟨"t", 0, "s", [1]⟩, ⟨"t", 1, "s", [3]⟩] "t" 0
      = [1, 3] := rfl
  have hb : tractSlice [⟨"t", 0, "beta_hat", [2]⟩, ⟨"t", 1, "beta_hat", [2]⟩]
      "t" 0 = [2, 2] := rfl
  have hstdf : stdR ([1, 3] : List ℝ) = .num (Real.sqrt 2) := by
    unfold stdR
    rw [if_neg (by norm_num)]
    norm_num [meanR]
  have hstdb : stdR ([2, 2] : List ℝ) = .num 0 := by
    unfold stdR
    rw [if_neg (by norm_num)]
    norm_num [meanR]
  have hne : Real.sqrt 2 ≠ 0 := by
    have : (0 : ℝ) < Real.sqrt 2 := Real.sqrt_pos.mpr (by norm_num)
    exact this.ne'
  have h := (C6_scale_formula [⟨"t", 0, "s", [1]⟩, ⟨"t", 1, "s", [3]⟩]
    [⟨"t", 0, "beta_hat", [2]⟩, ⟨"t", 1, "beta_hat", [2]⟩] "t" 0 5).2.1
    (Real.sqrt 2) (by rw [hf]; exact hstdf) hne (by rw [hb]; exact hstdb)
  rw [h, hf, hb]
  norm_num [meanR]

theorem lookup_zip_map {α : Type} (l : List String) (f : String → α)
    (c : String) (hc : c ∈ l) :
    (l.zip (l.map f)).lookup c = some (f c) := by
  induction l with
  | nil => cases hc
  | cons a rest ih =>
      by_cases hac : c = a
      · subst hac
        simp [List.lookup]
      · have hbeq : (c == a) = false := by simpa using hac
        rcases List.mem_cons.mp hc with h | h
        · exact absurd h hac
        · simpa [List.lookup, hbeq, List.zip] using ih h

theorem lookup_metricsFor {α : Type} :
    ∀ (cols : List ColKey) (β : List α), cols.Nodup →
      ∀ k (hk : k < cols.length) (hk2 : k < β.length),
        (metricsFor β cols (cols.get ⟨k, hk⟩).1 (cols.get ⟨k, hk⟩).2.2).lookup
            (cols.get ⟨k, hk⟩).2.1
          = some (β.get ⟨k, hk2⟩) := by
  intro cols
  induction cols with
  | nil =>
      intro β _ k hk
      exact absurd hk (by simp)
  | cons c rest ih =>
      intro β hnd k hk hk2
      obtain ⟨hcnot, hndr⟩ := List.nodup_cons.mp hnd
      cases β with
      | nil => exact absurd hk2 (by simp)
      | cons b brest =>
          cases k with
          | zero =>
              show (metricsFor (b :: brest) (c :: rest) c.1 c.2.2).lookup
                  c.2.1 = some b
              simp [metricsFor, List.lookup]
          | succ k =>
              have hkr : k < rest.length := by simpa using hk
              have hkb : k < brest.length := by simpa using hk2
              have htgt : (c :: rest).get ⟨k + 1, hk⟩ = rest.get ⟨k, hkr⟩ :=
                rfl
              have hb : (b :: brest).get ⟨k + 1, hk2⟩ = brest.get ⟨k, hkb⟩ :=
                rfl
              rw [htgt, hb]
              have hihr := ih brest hndr k hkr hkb
              simp only [metricsFor, List.zip_cons_cons, List.filterMap_cons]
              by_cases hc : c.1 = (rest.get ⟨k, hkr⟩).1
                ∧ c.2.2 = (rest.get ⟨k, hkr⟩).2.2
              · rw [if_pos hc]
                have hne : c.2.1 ≠ (rest.get ⟨k, hkr⟩).2.1 := by
                  intro he
                  apply hcnot
                  have hceq : c = rest.get ⟨k, hkr⟩ := by
                    obtain ⟨h1, h2⟩ := hc
                    exact Prod.ext h1 (Prod.ext he h2)
                  rw [hceq]
                  exact List.get_mem rest k hkr
                have hbeq : ((rest.get ⟨k, hkr⟩).2.1 == c.2.1) = false := by
                  simpa using (Ne.symm hne)
                simp only [List.get_eq_getElem] at hbeq
                simpa [List.lookup, hbeq, metricsFor] using hihr
              · rw [if_neg hc]
                simpa [metricsFor] using hihr

/-- C7: for distinct column keys and a coefficient vector of matching length,
the reshaped synthetic table has exactly one row per `(tractID, nodeID)` pair
of the column keys, every row belongs to the synthetic subject `"beta_hat"`,
the value stored under each key's metric at its `(tract, node)` row is the
coefficient at that key's position in the supplied ordering, and the
companion phenotype table gains exactly one placeholder row whose
`subjectID` is `"beta_hat"` and whose every other column is blank. -/
theorem C7_beta_reshape {α : Type} (β : List α) (cols : List ColKey)
    (hnd : cols.Nodup) (hlen : β.length = cols.length) :
    (∀ r ∈ betaRows β cols, r.subj = "beta_hat")
      ∧ ((betaRows β cols).map (fun r => (r.tract, r.node)) = betaPairs cols
          ∧ (betaPairs cols).Nodup)
      ∧ (∀ r ∈ betaRows β cols, r.mvals = metricsFor β cols r.tract r.node)
      ∧ (∀ k, ∀ hk : k < cols.length,
          (metricsFor β cols (cols.get ⟨k, hk⟩).1
              (cols.get ⟨k, hk⟩).2.2).lookup (cols.get ⟨k, hk⟩).2.1
            = some (β.get ⟨k, by omega⟩))
      ∧ (∀ scols srows, appendBetaSubject scols srows
          = srows ++ [betaSubjectRow scols]
          ∧ ∀ c ∈ scols, (scols.zip (betaSubjectRow scols)).lookup c
            = some (if c = "subjectID" then "beta_hat" else "")) := by
  refine ⟨?_, ⟨?_, List.nodup_dedup _⟩, ?_, ?_, ?_⟩
  · intro r hr
    obtain ⟨p, _, hp⟩ := List.mem_map.mp hr
    rw [← hp]
  · simp [betaRows, List.map_map, Function.comp_def]
  · intro r hr
    obtain ⟨p, _, hp⟩ := List.mem_map.mp hr
    rw [← hp]
  · intro k hk
    exact lookup_metricsFor cols β hnd k hk (by omega)
  · intro scols srows
    exact ⟨rfl, fun c hc => lookup_zip_map scols _ c hc⟩

/-- Witness for C7 at a concrete input: three coefficients over keys
`("T","fa",0), ("T","fa",1), ("T","md",0)`. -/
theorem C7_beta_reshape_witness :
    (metricsFor [10, 11, 12] [("T", "fa", 0), ("T", "fa", 1), ("T", "md", 0)]
        "T" 0).lookup "md" = some (12 : Nat)
      ∧ ∀ r ∈ betaRows [10, 11, 12]
          [("T", "fa", 0), ("T", "fa", 1), ("T", "md", 0)],
        r.subj = "beta_hat" := by
  have h := C7_beta_reshape [(10 : Nat), 11, 12]
    [("T", "fa", 0), ("T", "fa", 1), ("T", "md", 0)] (by decide) (by decide)
  refine ⟨?_, h.1⟩
  have h2 := h.2.2.2.1 2 (by decide)
  simpa using h2

end AFQ
